import Mathlib

/-
  Verification development for the federal DEI contracts dashboard
  (src/app.py).  The data pipeline of the program is embedded shallowly:

  * Python strings that undergo character-level transformations are
    represented as lists of Unicode code points (List Nat); strings that
    are only compared for equality are represented as Lean String values.
  * A loaded table row is the structure Row below; the dataframe is a
    List Row.  The pandas aggregations (groupby / sum / sort / tail) are
    embedded as list functions.
  * Monetary amounts are rationals (the float arithmetic of the source
    only adds and compares values parsed from decimal literals, which is
    exact in that range, so ℚ is a faithful carrier).
-/

/- ===== Strings as code-point lists ===== -/

def strN (s : String) : List Nat := s.toList.map Char.toNat

/- The code points of the column marker string used by the source,
   spelled t h e m e underscore. -/
def themeMarker : List Nat := [116, 104, 101, 109, 101, 95]

def startsWithL : List Nat → List Nat → Bool
  | [], _ => true
  | _ :: _, [] => false
  | a :: as, b :: bs => a == b && startsWithL as bs

/- Python str.replace with empty replacement scans left to right and
   removes non-overlapping occurrences of the pattern.  The recursion is
   made structural with a fuel argument; pyStripAll supplies enough fuel. -/
def stripFuel : Nat → List Nat → List Nat
  | _, [] => []
  | 0, s => s
  | k + 1, c :: rest =>
    if startsWithL themeMarker (c :: rest) then stripFuel k (rest.drop 5)
    else c :: stripFuel k rest

def pyStripAll (s : List Nat) : List Nat := stripFuel s.length s

def hasMarker : List Nat → Bool
  | [] => false
  | c :: rest => startsWithL themeMarker (c :: rest) || hasMarker rest

/- ASCII character classes and case maps (the source data is ASCII; the
   Python string methods agree with these maps on ASCII input). -/
def isLowerA (c : Nat) : Bool := 97 ≤ c && c ≤ 122
def isUpperA (c : Nat) : Bool := 65 ≤ c && c ≤ 90
def isDigitA (c : Nat) : Bool := 48 ≤ c && c ≤ 57
def isAlphaA (c : Nat) : Bool := isLowerA c || isUpperA c
def toLowerA (c : Nat) : Nat := if isUpperA c then c + 32 else c
def toUpperA (c : Nat) : Nat := if isLowerA c then c - 32 else c

/- Python str.title: a cased character is uppercased when the previous
   character is not cased, lowercased otherwise. -/
def titleChar (prevCased : Bool) (c : Nat) : Nat :=
  if isAlphaA c then (if prevCased then toLowerA c else toUpperA c) else c

def titleAux : Bool → List Nat → List Nat
  | _, [] => []
  | prevCased, c :: rest => titleChar prevCased c :: titleAux (isAlphaA c) rest

def pyTitle (s : List Nat) : List Nat := titleAux false s

def pyLower (s : List Nat) : List Nat := s.map toLowerA

def u2sChar (c : Nat) : Nat := if c == 95 then 32 else c

def s2uChar (c : Nat) : Nat := if c == 32 then 95 else c

def underscoreToSpace (s : List Nat) : List Nat := s.map u2sChar

def spaceToUnderscore (s : List Nat) : List Nat := s.map s2uChar

/- app.py line 156: col.replace(theme marker, empty).replace(underscore,
   space).title() -/
def colToLabel (col : List Nat) : List Nat :=
  pyTitle (underscoreToSpace (pyStripAll col))

/- app.py line 169: the marker followed by theme.lower().replace(space,
   underscore) -/
def labelToCol (label : List Nat) : List Nat :=
  themeMarker ++ spaceToUnderscore (pyLower label)

/- Character set for which the label derivation is invertible: lowercase
   ASCII letters, ASCII digits and the underscore. -/
def okChar (c : Nat) : Bool := isLowerA c || isDigitA c || c == 95

/- ===== Award amount parsing (app.py line 77) ===== -/

/- The regex replace removes every dollar-sign (36) and comma (44)
   character from the raw field. -/
def stripAmt (s : List Nat) : List Nat :=
  s.filter (fun c => !(c == 36) && !(c == 44))

def digitsToNat (l : List Nat) : Nat := l.foldl (fun a c => a * 10 + (c - 48)) 0

/- Python float() on an unsigned decimal literal: digits, optionally with
   one dot separating integer and fractional digits; anything else fails.
   (Exponent forms, inf and nan do not occur in the data and are modelled
   as failures together with every other non-numeric residue.) -/
def parseBody (body : List Nat) : Option ℚ :=
  let intPart := body.takeWhile (fun c => !(c == 46))
  let rest := body.dropWhile (fun c => !(c == 46))
  match rest with
  | [] =>
    if intPart.all isDigitA && !intPart.isEmpty then
      some ((digitsToNat intPart : ℚ))
    else none
  | _ :: frac =>
    if intPart.all isDigitA && frac.all isDigitA &&
        !(intPart.isEmpty && frac.isEmpty) then
      some ((digitsToNat intPart : ℚ) + (digitsToNat frac : ℚ) / (10 : ℚ) ^ frac.length)
    else none

def parseFloatQ : List Nat → Option ℚ
  | 45 :: body => (parseBody body).map (fun q => -q)
  | 43 :: body => parseBody body
  | body => parseBody body

/- astype(float) over the whole column: one bad cell raises, the caught
   exception makes load_data return None, so the load is all or nothing. -/
def loadAmounts : List (List Nat) → Option (List ℚ)
  | [] => some []
  | r :: rest =>
    match parseFloatQ (stripAmt r), loadAmounts rest with
    | some v, some vs => some (v :: vs)
    | _, _ => none

/- ===== Award size category (app.py lines 104 to 110) ===== -/

/- pd.cut with bins [0, 10000, 100000, 1000000, 10000000, inf] and the
   default right=True, include_lowest=False: the intervals are
   (0, 10000], (10000, 100000], (100000, 1000000], (1000000, 10000000],
   (10000000, inf], and a value outside every interval (here any value
   less than or equal to 0) receives no category (NaN, modelled none). -/
def awardSizeCategory (x : ℚ) : Option String :=
  if x ≤ 0 then none
  else if x ≤ 10000 then some "Micro (< $10K)"
  else if x ≤ 100000 then some "Small ($10K - $100K)"
  else if x ≤ 1000000 then some "Medium ($100K - $1M)"
  else if x ≤ 10000000 then some "Large ($1M - $10M)"
  else some "Major (> $10M)"

/-- Modelled from the spec: the award size category as the specification
describes it, a partition of the non-negative amounts into the five
half-open buckets with lower bound included and upper bound excluded, an
amount exactly on a boundary belonging to the upper bucket. -/
def specSizeCategory (x : ℚ) : Option String :=
  if x < 0 then none
  else if x < 10000 then some "Micro (< $10K)"
  else if x < 100000 then some "Small ($10K - $100K)"
  else if x < 1000000 then some "Medium ($100K - $1M)"
  else if x < 10000000 then some "Large ($1M - $10M)"
  else some "Major (> $10M)"

/- ===== Agency canonicalization (app.py lines 80 to 97) ===== -/

/- The agency_mappings dict, in source order. -/
def agencyPairs : List (String × String) :=
  [("Agency for International Development (USAID)", "Agency for International Development"),
   ("Agency for International Development", "Agency for International Development"),
   ("Department of Health and Human Services (HHS)", "Department of Health and Human Services"),
   ("Department of Health and Human Services", "Department of Health and Human Services"),
   ("National Science Foundation (NSF)", "National Science Foundation"),
   ("National Science Foundation", "National Science Foundation"),
   ("Department of Justice (DOJ)", "Department of Justice"),
   ("Department of Justice", "Department of Justice"),
   ("Department of Defense (DOD)", "Department of Defense"),
   ("Department of Defense", "Department of Defense"),
   ("Department of Education (ED)", "Department of Education"),
   ("Department of Education", "Department of Education"),
   ("Environmental Protection Agency (EPA)", "Environmental Protection Agency"),
   ("Environmental Protection Agency", "Environmental Protection Agency")]

/- Series.replace with a dict maps a cell that equals a key to its value
   and leaves every other cell unchanged. -/
def canonicalize (x : String) : String := (agencyPairs.lookup x).getD x

def agencyMapKeys : List String := agencyPairs.map Prod.fst

def agencyCanonicalNames : List String :=
  ["Agency for International Development",
   "Department of Health and Human Services",
   "National Science Foundation",
   "Department of Justice",
   "Department of Defense",
   "Department of Education",
   "Environmental Protection Agency"]

/- ===== The loaded table ===== -/

/- One row of the normalized table, restricted to the fields the claims
   touch.  agency holds the canonical agency name, month the calendar
   month (year and month) of action_date encoded as one natural number,
   flags the boolean theme columns keyed by column name. -/
structure Row where
  agency : String
  recipient : String
  amount : ℚ
  month : Nat
  flags : List (List Nat × Bool)
deriving DecidableEq

def sumAmt (rows : List Row) : ℚ := (rows.map Row.amount).sum

/- ===== Aggregator (app.py lines 195 to 272) ===== -/

def totalContracts (rows : List Row) : Nat := rows.length

def uniqueRecipients (rows : List Row) : Nat :=
  ((rows.map Row.recipient).dedup).length

/- df[col] for a theme column; a column that is absent is modelled as
   all false (the source would raise a KeyError there, see C3). -/
def rowFlag (r : Row) (col : List Nat) : Bool :=
  (r.flags.lookup col).getD false

/- theme_data: per theme column, the count of rows with the flag set,
   relabeled through colToLabel (app.py lines 216 to 217). -/
def themeDistribution (cols : List (List Nat)) (rows : List Row) :
    List (List Nat × Nat) :=
  cols.map (fun c => (colToLabel c, (rows.filter (fun r => rowFlag r c)).length))

/- The theme filter loop (app.py lines 166 to 171): a mask starting all
   false, or-ing in each selected theme column. -/
def themeMask (selected : List (List Nat)) (r : Row) : Bool :=
  selected.foldl (fun acc t => acc || rowFlag r (labelToCol t)) false

def themePass (selected : List (List Nat)) (r : Row) : Bool :=
  if selected.isEmpty then true else themeMask selected r

/- groupby on the canonical agency column.  pandas sorts the group keys;
   the later sort by value reorders them anyway, so the totals are built
   in first-occurrence order here. -/
def agencyKeys (rows : List Row) : List String := (rows.map Row.agency).dedup

def agencyTotals (rows : List Row) : List (String × ℚ) :=
  (agencyKeys rows).map
    (fun a => (a, sumAmt (rows.filter (fun r => decide (r.agency = a)))))

/- Ordering of agency entries by total (sort_values ascending).  The
   source sort is not stable and ties are in unspecified order; every
   theorem below is insensitive to the tie order. -/
def sndLe (p q : String × ℚ) : Prop := p.2 ≤ q.2

instance : DecidableRel sndLe :=
  fun p q => inferInstanceAs (Decidable (p.2 ≤ q.2))

instance : IsTotal (String × ℚ) sndLe := ⟨fun p q => le_total p.2 q.2⟩

instance : IsTrans (String × ℚ) sndLe := ⟨fun _ _ _ h1 h2 => le_trans h1 h2⟩

/- app.py lines 239 to 244: group, sum, sort ascending, tail(10). -/
def top10Agencies (rows : List Row) : List (String × ℚ) :=
  let s := List.insertionSort sndLe (agencyTotals rows)
  s.drop (s.length - 10)

/- app.py lines 268 to 272: group by the month period of action_date
   (pandas sorts the period keys ascending), sum the amounts and count
   the rows per month. -/
def monthKeys (rows : List Row) : List Nat :=
  List.insertionSort (fun a b => a ≤ b) ((rows.map Row.month).dedup)

def timelineData (rows : List Row) : List (Nat × ℚ × Nat) :=
  (monthKeys rows).map (fun m =>
    (m, sumAmt (rows.filter (fun r => decide (r.month = m))),
     (rows.filter (fun r => decide (r.month = m))).length))

/- ===== Derived columns of the loader (app.py lines 100 to 110) ===== -/

/- The columns of the raw csv that the conditional derivations read and
   write.  durationDays and sizeCategory are none when the respective
   column is absent from the input file. -/
structure RawTable where
  startDates : List Int
  endDates : List Int
  amounts : List ℚ
  durationDays : Option (List Int)
  sizeCategory : Option (List (Option String))
deriving DecidableEq

def durationCol (t : RawTable) : List Int :=
  List.zipWith (fun e s => e - s) t.endDates t.startDates

def deriveDuration (t : RawTable) : RawTable :=
  if t.durationDays.isNone then { t with durationDays := some (durationCol t) }
  else t

def deriveCategory (t : RawTable) : RawTable :=
  if t.sizeCategory.isNone then
    { t with sizeCategory := some (t.amounts.map awardSizeCategory) }
  else t

def deriveColumns (t : RawTable) : RawTable := deriveCategory (deriveDuration t)

/- ===== Top level rendering (app.py lines 113 to 120, 362 to 363) ===== -/

inductive View where
  | errorMsg : String → View
  | filtersPanel : View
  | metricsPanel : View
  | themeChart : View
  | agencyChart : View
  | timelineChart : View
  | dataTable : View
  | sampleFeed : View
deriving DecidableEq

def isErrorView : View → Bool
  | View.errorMsg _ => true
  | _ => false

def dashboardViews : List View :=
  [View.filtersPanel, View.metricsPanel, View.themeChart, View.agencyChart,
   View.timelineChart, View.dataTable, View.sampleFeed]

/- When load_data returns None two notices are emitted: the st.error in
   the except branch of load_data (its exception text is abstracted here)
   and the st.error of the top-level else branch; no other widget is
   rendered.  On success the full dashboard is rendered. -/
def appViews (raws : List (List Nat)) : List View :=
  match loadAmounts raws with
  | none =>
    [View.errorMsg "Error loading data: parse failure",
     View.errorMsg "Unable to load data. Please check the data file and try again."]
  | some _ => dashboardViews

/- ===== Concrete inputs used by witnesses and counterexamples ===== -/

def mkRow (a : String) (q : ℚ) : Row :=
  { agency := a, recipient := "", amount := q, month := 0, flags := [] }

def rowsPair : List Row := [mkRow "A" 5, mkRow "B" 3]

/- Eleven distinct agencies, every award amount zero: the excluded
   eleventh agency then contributes nothing to the total. -/
def rowsElevenAgencies : List Row :=
  [mkRow "A00" 0, mkRow "A01" 0, mkRow "A02" 0, mkRow "A03" 0, mkRow "A04" 0,
   mkRow "A05" 0, mkRow "A06" 0, mkRow "A07" 0, mkRow "A08" 0, mkRow "A09" 0,
   mkRow "A10" 0]

def rowAB : Row :=
  { agency := "", recipient := "", amount := 0, month := 0,
    flags := [(strN "theme_a", true), (strN "theme_b", false)] }

def tDerivePresent : RawTable :=
  { startDates := [0], endDates := [3], amounts := [5],
    durationDays := some [99], sizeCategory := some [some "preset"] }

def tDeriveAbsent : RawTable :=
  { startDates := [0], endDates := [3], amounts := [5],
    durationDays := none, sizeCategory := none }

/- ===== General list lemmas ===== -/

theorem sum_map_const_zero {κ M : Type} [AddCommMonoid M] (ks : List κ) :
    (ks.map (fun _ => (0 : M))).sum = 0 := by
  induction ks with
  | nil => simp
  | cons a ks ih => simp [ih]

theorem sum_map_add_distrib {κ M : Type} [AddCommMonoid M] (ks : List κ)
    (f g : κ → M) :
    (ks.map (fun k => f k + g k)).sum = (ks.map f).sum + (ks.map g).sum := by
  induction ks with
  | nil => simp
  | cons a ks ih => simp [ih]; rw [add_add_add_comm]

theorem map_congr_fun {α β : Type} (l : List α) (f g : α → β)
    (h : ∀ a ∈ l, f a = g a) : l.map f = l.map g := by
  induction l with
  | nil => rfl
  | cons a l ih =>
    simp only [List.map_cons]
    rw [h a (List.mem_cons_self a l), ih (fun x hx => h x (List.mem_cons_of_mem a hx))]

theorem sum_map_ite_single {κ M : Type} [DecidableEq κ] [AddCommMonoid M]
    (ks : List κ) (c : κ) (v : M) (hnd : ks.Nodup) :
    (ks.map (fun k => if c = k then v else 0)).sum = if c ∈ ks then v else 0 := by
  induction ks with
  | nil => simp
  | cons a ks ih =>
    rcases List.nodup_cons.mp hnd with ⟨hna, hnd2⟩
    by_cases hca : c = a
    · subst hca
      have hnc : c ∉ ks := hna
      simp only [List.map_cons, List.sum_cons, if_pos rfl, ih hnd2]
      simp [hnc]
    · simp only [List.map_cons, List.sum_cons, if_neg hca, ih hnd2, zero_add]
      simp [List.mem_cons, hca]

theorem sum_fiberwise_list {α κ M : Type} [DecidableEq κ] [AddCommMonoid M]
    (key : α → κ) (w : α → M) (rows : List α) (ks : List κ)
    (hnd : ks.Nodup) (hmem : ∀ r ∈ rows, key r ∈ ks) :
    (ks.map (fun k => ((rows.filter (fun r => decide (key r = k))).map w).sum)).sum
      = (rows.map w).sum := by
  induction rows with
  | nil => simp [sum_map_const_zero]
  | cons r rest ih =>
    have hstep : ∀ k ∈ ks,
        (((r :: rest).filter (fun x => decide (key x = k))).map w).sum
          = (if key r = k then w r else 0)
            + ((rest.filter (fun x => decide (key x = k))).map w).sum := by
      intro k _
      by_cases hk : key r = k
      · simp [List.filter_cons, hk]
      · simp [List.filter_cons, hk]
    rw [map_congr_fun ks _ _ hstep, sum_map_add_distrib, sum_map_ite_single ks
      (key r) (w r) hnd, if_pos (hmem r (List.mem_cons_self r rest))]
    rw [ih (fun x hx => hmem x (List.mem_cons_of_mem r hx))]
    simp

theorem sum_map_ones {α : Type} (l : List α) :
    (l.map (fun _ => (1 : Nat))).sum = l.length := by
  induction l with
  | nil => rfl
  | cons a l ih => simp [ih, Nat.add_comm]

theorem foldl_or_any {α : Type} (f : α → Bool) (l : List α) (b : Bool) :
    l.foldl (fun acc t => acc || f t) b = (b || l.any f) := by
  induction l generalizing b with
  | nil => simp
  | cons a l ih => simp [List.foldl_cons, ih, Bool.or_assoc]

theorem list_sum_nonneg_q (l : List ℚ) (h : ∀ x ∈ l, 0 ≤ x) : 0 ≤ l.sum :=
  List.sum_nonneg h

/- ===== Lemmas about the label pipeline ===== -/

theorem stripFuel_no_marker (k : Nat) :
    ∀ s : List Nat, s.length ≤ k → hasMarker s = false → stripFuel k s = s := by
  induction k with
  | zero =>
    intro s hk _
    cases s with
    | nil => rfl
    | cons c rest => simp at hk
  | succ k ih =>
    intro s hk hm
    cases s with
    | nil => rfl
    | cons c rest =>
      have hm2 : startsWithL themeMarker (c :: rest) = false ∧ hasMarker rest = false := by
        simpa [hasMarker] using hm
      simp only [stripFuel, hm2.1, Bool.false_eq_true, if_false]
      rw [ih rest (by simpa using Nat.le_of_succ_le_succ hk) hm2.2]

theorem stripFuel_marker_step (k : Nat) (t : List Nat) :
    stripFuel (k + 1) (themeMarker ++ t) = stripFuel k t := rfl

theorem pyStripAll_marker (suffix : List Nat) (h : hasMarker suffix = false) :
    pyStripAll (themeMarker ++ suffix) = suffix := by
  have hlen : (themeMarker ++ suffix).length = (5 + suffix.length) + 1 := by
    simp [themeMarker]
    omega
  rw [pyStripAll, hlen, stripFuel_marker_step]
  exact stripFuel_no_marker _ suffix (by omega) h

theorem roundtrip_char (p : Bool) (c : Nat) (hc : okChar c = true) :
    s2uChar (toLowerA (titleChar p (u2sChar c))) = c := by
  simp only [okChar, isLowerA, isDigitA, Bool.or_eq_true, Bool.and_eq_true,
    decide_eq_true_eq, beq_iff_eq] at hc
  simp only [u2sChar, s2uChar, titleChar, toLowerA, toUpperA, isAlphaA,
    isLowerA, isUpperA, Bool.or_eq_true, Bool.and_eq_true, decide_eq_true_eq,
    beq_iff_eq]
  split_ifs <;> omega

theorem title_lower_roundtrip :
    ∀ (s : List Nat) (p : Bool), (∀ c ∈ s, okChar c = true) →
      spaceToUnderscore (pyLower (titleAux p (underscoreToSpace s))) = s := by
  intro s
  induction s with
  | nil => intro p _; rfl
  | cons c rest ih =>
    intro p h
    have hc : okChar c = true := h c (List.mem_cons_self c rest)
    have hrest : ∀ x ∈ rest, okChar x = true :=
      fun x hx => h x (List.mem_cons_of_mem c hx)
    have htail := ih (isAlphaA (u2sChar c)) hrest
    simp only [underscoreToSpace, spaceToUnderscore, pyLower, List.map_cons,
      titleAux] at htail ⊢
    rw [roundtrip_char p c hc, htail]

/- ===== Lemmas about canonicalization ===== -/

theorem lookup_mem_snd {α β : Type} [BEq α] (l : List (α × β)) (x : α) (v : β)
    (h : l.lookup x = some v) : v ∈ l.map Prod.snd := by
  induction l with
  | nil => simp [List.lookup] at h
  | cons p rest ih =>
    rw [List.lookup] at h
    cases hk : x == p.1 with
    | true =>
      rw [hk] at h
      simp only [Option.some.injEq] at h
      subst h
      exact List.mem_cons_self _ _
    | false =>
      rw [hk] at h
      exact List.mem_cons_of_mem _ (ih h)

theorem lookup_none_of_no_key {α β : Type} [BEq α] [LawfulBEq α]
    (l : List (α × β)) (x : α) (h : ∀ k ∈ l.map Prod.fst, x ≠ k) :
    l.lookup x = none := by
  induction l with
  | nil => rfl
  | cons p rest ih =>
    rw [List.lookup]
    have hne : x ≠ p.1 := h p.1 (List.mem_cons_self _ _)
    have hk : (x == p.1) = false := by
      simp only [beq_eq_false_iff_ne, ne_eq]
      exact hne
    rw [hk]
    exact ih (fun k hk2 => h k (List.mem_cons_of_mem _ hk2))

theorem canonical_names_fixed :
    ∀ y ∈ agencyCanonicalNames, canonicalize y = y := by decide

theorem canonical_values_fixed :
    ∀ v ∈ agencyPairs.map Prod.snd, canonicalize v = v := by decide

theorem canonical_values_sub :
    ∀ v ∈ agencyPairs.map Prod.snd, v ∈ agencyCanonicalNames := by decide

theorem canonicalize_image (x : String) :
    canonicalize x = x ∨ canonicalize x ∈ agencyCanonicalNames := by
  cases h : agencyPairs.lookup x with
  | none => exact Or.inl (by simp [canonicalize, h])
  | some v =>
    have hcv : canonicalize x = v := by simp [canonicalize, h]
    exact Or.inr (hcv ▸ canonical_values_sub v (lookup_mem_snd _ _ _ h))

theorem canonicalize_not_key (x : String)
    (h : ∀ k ∈ agencyMapKeys, x ≠ k) : canonicalize x = x := by
  have hn : agencyPairs.lookup x = none :=
    lookup_none_of_no_key agencyPairs x (fun k hk => h k hk)
  simp [canonicalize, hn]

/- ===== Lemmas about amount loading ===== -/

theorem loadAmounts_isSome_iff (raws : List (List Nat)) :
    (loadAmounts raws).isSome = true
      ↔ ∀ r ∈ raws, (parseFloatQ (stripAmt r)).isSome = true := by
  induction raws with
  | nil => simp [loadAmounts]
  | cons r rest ih =>
    cases h1 : parseFloatQ (stripAmt r) with
    | none => simp [loadAmounts, h1]
    | some v =>
      cases h2 : loadAmounts rest with
      | none =>
        have : ¬ ∀ x ∈ rest, (parseFloatQ (stripAmt x)).isSome = true := by
          rw [← ih, h2]
          simp
        simp [loadAmounts, h1, h2, this]
      | some vs =>
        have hall : ∀ x ∈ rest, (parseFloatQ (stripAmt x)).isSome = true := by
          rw [← ih, h2]
          rfl
        simp only [loadAmounts, h1, h2, List.forall_mem_cons]
        constructor
        · intro _
          exact ⟨by simp [h1], hall⟩
        · intro _
          rfl

/- ===== Claim theorems ===== -/

/-- C1: the claim states that the derived award_size_category realizes the
five-way half-open partition of the non-negative amounts with boundary
values in the upper bucket (10000 to Small, 10000000 to Major, 0 bucketed
as Micro).  The code (pd.cut with default right-closed bins) instead puts
boundary values in the lower bucket and gives amount 0 no category at
all, contradicting its own bucket labels; this theorem evaluates the
embedded code and the spec-modelled partition at the failing inputs. -/
theorem award_size_boundary_divergence :
    awardSizeCategory 10000 = some "Micro (< $10K)"
    ∧ awardSizeCategory 0 = none
    ∧ awardSizeCategory 10000000 = some "Large ($1M - $10M)"
    ∧ specSizeCategory 10000 = some "Small ($10K - $100K)"
    ∧ specSizeCategory 0 = some "Micro (< $10K)"
    ∧ specSizeCategory 10000000 = some "Major (> $10M)"
    ∧ awardSizeCategory (999999 / 100) = some "Micro (< $10K)"
    ∧ specSizeCategory (999999 / 100) = some "Micro (< $10K)" := by
  refine ⟨by decide, by decide, by decide, by decide, by decide, by decide,
    ?_, ?_⟩
  · norm_num [awardSizeCategory]
  · norm_num [specSizeCategory]

/-- C5: canonicalization is idempotent on every string, every canonical
name is a fixed point, and a name that is not a key of the synonym table
passes through unchanged. -/
theorem canonicalize_idempotent :
    (∀ x, canonicalize (canonicalize x) = canonicalize x)
    ∧ (∀ y ∈ agencyCanonicalNames, canonicalize y = y)
    ∧ (∀ x, (∀ k ∈ agencyMapKeys, x ≠ k) → canonicalize x = x) := by
  refine ⟨fun x => ?_, canonical_names_fixed, canonicalize_not_key⟩
  rcases canonicalize_image x with h | h
  · rw [h]
    exact h
  · exact canonical_names_fixed _ h

theorem canonicalize_idempotent_witness :
    canonicalize (canonicalize "Department of Justice (DOJ)")
      = canonicalize "Department of Justice (DOJ)"
    ∧ canonicalize "Unknown Agency" = "Unknown Agency" :=
  ⟨canonicalize_idempotent.1 _,
   canonicalize_idempotent.2.2 "Unknown Agency" (by decide)⟩

/-- C6: a row passes the theme filter exactly when the selection is empty
or some selected theme flag is true on the row (disjunction over the
selection), and in particular a row with theme_a true and theme_b false
passes the selections A and A,B but not B. -/
theorem theme_filter_or_semantics :
    (∀ (sel : List (List Nat)) (r : Row),
      themePass sel r = true
        ↔ (sel = [] ∨ ∃ t ∈ sel, rowFlag r (labelToCol t) = true))
    ∧ themePass [strN "A"] rowAB = true
    ∧ themePass [strN "A", strN "B"] rowAB = true
    ∧ themePass [strN "B"] rowAB = false := by
  refine ⟨fun sel r => ?_, by decide, by decide, by decide⟩
  cases sel with
  | nil => simp [themePass]
  | cons a t =>
    simp [themePass, themeMask, foldl_or_any, List.any_eq_true]

theorem theme_filter_or_semantics_witness :
    themePass [] rowAB = true :=
  (theme_filter_or_semantics.1 [] rowAB).mpr (Or.inl rfl)

/-- C10: the loader derives contract_duration_days and
award_size_category only when the respective column is absent from the
input; a pre-existing column is returned unchanged by the load. -/
theorem derive_columns_conditional (t : RawTable) :
    (∀ d, t.durationDays = some d → (deriveColumns t).durationDays = some d)
    ∧ (∀ c, t.sizeCategory = some c → (deriveColumns t).sizeCategory = some c)
    ∧ (t.durationDays = none →
        (deriveColumns t).durationDays = some (durationCol t))
    ∧ (t.sizeCategory = none →
        (deriveColumns t).sizeCategory = some (t.amounts.map awardSizeCategory)) := by
  rcases t with ⟨sd, ed, am, dur, cat⟩
  cases dur <;> cases cat <;>
    simp [deriveColumns, deriveCategory, deriveDuration, durationCol]

theorem derive_columns_conditional_witness :
    (deriveColumns tDerivePresent).durationDays = some [99]
    ∧ (deriveColumns tDeriveAbsent).sizeCategory
        = some (tDeriveAbsent.amounts.map awardSizeCategory) :=
  ⟨(derive_columns_conditional tDerivePresent).1 [99] rfl,
   (derive_columns_conditional tDeriveAbsent).2.2.2 rfl⟩

/-- C8 (amended): on an empty filtered subset the scalar metrics are all
zero and the top-10-agency and monthly-timeline series are empty; the
theme distribution is not empty but has one zero-count entry per theme
column of the table. -/
theorem empty_subset_aggregates :
    totalContracts [] = 0 ∧ sumAmt [] = 0 ∧ uniqueRecipients [] = 0
    ∧ top10Agencies [] = [] ∧ timelineData [] = []
    ∧ ∀ cols : List (List Nat),
        themeDistribution cols [] = cols.map (fun c => (colToLabel c, 0)) := by
  refine ⟨rfl, rfl, rfl, rfl, rfl, fun cols => ?_⟩
  simp [themeDistribution]

theorem theme_distribution_nonempty_on_empty :
    themeDistribution [strN "theme_x"] [] ≠ []
    ∧ (themeDistribution [strN "theme_x"] []).length = 1 := by decide

/-- C3 (amended): for a theme column named by the marker followed by a
suffix of lowercase ASCII letters, digits and underscores with no further
occurrence of the marker inside the suffix, the displayed label maps back
to the column itself, so the lookup in the theme-filter branch cannot
fail for a selection drawn from such labels.  (Columns with uppercase
letters or a repeated marker falsify the unconditional claim, see the
counterexample.) -/
theorem theme_label_roundtrip (cols : List (List Nat)) (col suffix : List Nat)
    (hmem : col ∈ cols) (hcol : col = themeMarker ++ suffix)
    (hok : ∀ c ∈ suffix, okChar c = true) (hnm : hasMarker suffix = false) :
    labelToCol (colToLabel col) = col ∧ labelToCol (colToLabel col) ∈ cols := by
  subst hcol
  have h1 : pyStripAll (themeMarker ++ suffix) = suffix := pyStripAll_marker suffix hnm
  have h2 : spaceToUnderscore (pyLower (titleAux false (underscoreToSpace suffix)))
      = suffix := title_lower_roundtrip suffix false hok
  have hround : labelToCol (colToLabel (themeMarker ++ suffix))
      = themeMarker ++ suffix := by
    rw [colToLabel, h1, labelToCol, pyTitle, h2]
  exact ⟨hround, by rw [hround]; exact hmem⟩

theorem theme_label_roundtrip_witness :
    labelToCol (colToLabel (strN "theme_race_equity")) = strN "theme_race_equity"
    ∧ labelToCol (colToLabel (strN "theme_race_equity")) ∈ [strN "theme_race_equity"] :=
  theme_label_roundtrip [strN "theme_race_equity"] (strN "theme_race_equity")
    (strN "race_equity") (by decide) (by decide) (by decide) (by decide)

theorem theme_label_roundtrip_cex :
    startsWithL themeMarker (strN "theme_X") = true
    ∧ labelToCol (colToLabel (strN "theme_X")) ∉ [strN "theme_X"] := by decide

/-- C4 (amended): the loader removes every dollar sign and comma from the
raw amount field and parses the residue; the whole load succeeds exactly
when every residue parses, so one non-numeric residue fails the load.
(The claim that every loaded amount is non-negative is refuted by the
separate counterexample: a negative literal loads successfully.) -/
theorem load_strips_and_parses (raws : List (List Nat)) :
    ((loadAmounts raws).isSome = true
      ↔ ∀ r ∈ raws, (parseFloatQ (stripAmt r)).isSome = true)
    ∧ stripAmt (strN "$1,234.50") = strN "1234.50"
    ∧ (parseFloatQ (stripAmt (strN "$1,234.50"))).isSome = true
    ∧ (parseFloatQ (stripAmt (strN "abc"))).isSome = false :=
  ⟨loadAmounts_isSome_iff raws, by decide, by decide, by decide⟩

theorem negative_amount_loads :
    loadAmounts [strN "-5"] = some [(-5 : ℚ)] ∧ (-5 : ℚ) < 0 := by decide

/-- C7: the monthly timeline is sorted by month ascending, its per-month
counts sum to the number of filtered rows, and its per-month amounts sum
to the total award amount of the filtered subset. -/
theorem timeline_sums (rows : List Row) :
    ((timelineData rows).map (fun e => e.2.2)).sum = totalContracts rows
    ∧ ((timelineData rows).map (fun e => e.2.1)).sum = sumAmt rows
    ∧ List.Pairwise (fun a b => a.1 ≤ b.1) (timelineData rows) := by
  have hnd : (monthKeys rows).Nodup :=
    ((List.perm_insertionSort _ _).nodup_iff).mpr (List.nodup_dedup _)
  have hmem : ∀ r ∈ rows, r.month ∈ monthKeys rows := fun r hr =>
    ((List.perm_insertionSort _ _).mem_iff).mpr
      (List.mem_dedup.mpr (List.mem_map_of_mem Row.month hr))
  refine ⟨?_, ?_, ?_⟩
  · rw [timelineData, List.map_map]
    simp only [Function.comp_def]
    rw [map_congr_fun _
      (fun m => (rows.filter (fun r => decide (r.month = m))).length)
      (fun m => ((rows.filter (fun r => decide (r.month = m))).map
        (fun _ => (1 : Nat))).sum)
      (fun m _ => (sum_map_ones _).symm)]
    rw [sum_fiberwise_list Row.month (fun _ => (1 : Nat)) rows _ hnd hmem]
    exact sum_map_ones rows
  · rw [timelineData, List.map_map]
    simp only [Function.comp_def]
    rw [map_congr_fun _
      (fun m => sumAmt (rows.filter (fun r => decide (r.month = m))))
      (fun m => ((rows.filter (fun r => decide (r.month = m))).map Row.amount).sum)
      (fun m _ => by simp only [sumAmt])]
    exact sum_fiberwise_list Row.month Row.amount rows _ hnd hmem
  · rw [timelineData]
    refine List.pairwise_map.mpr ?_
    have hs : List.Pairwise (fun (a b : Nat) => a ≤ b) (monthKeys rows) :=
      List.sorted_insertionSort _ _
    exact hs

/-- C2 (amended): the top-10 aggregate is ascending by total; with
non-negative amounts its totals sum to at most the total award amount of
the filtered subset, with equality whenever at most 10 distinct agencies
are present.  (The converse direction of the stated equivalence is false:
the counterexample has 11 distinct agencies and still reaches equality,
because an excluded agency can have total zero.) -/
theorem top10_agencies_bound (rows : List Row) (h : ∀ r ∈ rows, 0 ≤ r.amount) :
    ((top10Agencies rows).map Prod.snd).sum ≤ sumAmt rows
    ∧ ((agencyKeys rows).length ≤ 10 →
        ((top10Agencies rows).map Prod.snd).sum = sumAmt rows)
    ∧ List.Pairwise sndLe (top10Agencies rows) := by
  have hperm : List.Perm (List.insertionSort sndLe (agencyTotals rows))
      (agencyTotals rows) := List.perm_insertionSort _ _
  have hndK : (agencyKeys rows).Nodup := List.nodup_dedup _
  have hmemK : ∀ r ∈ rows, r.agency ∈ agencyKeys rows := fun r hr =>
    List.mem_dedup.mpr (List.mem_map_of_mem Row.agency hr)
  have htot : ((agencyTotals rows).map Prod.snd).sum = sumAmt rows := by
    rw [agencyTotals, List.map_map]
    simp only [Function.comp_def]
    rw [map_congr_fun _
      (fun a => sumAmt (rows.filter (fun r => decide (r.agency = a))))
      (fun a => ((rows.filter (fun r => decide (r.agency = a))).map Row.amount).sum)
      (fun a _ => by simp only [sumAmt])]
    exact sum_fiberwise_list Row.agency Row.amount rows _ hndK hmemK
  have hsums : ((List.insertionSort sndLe (agencyTotals rows)).map Prod.snd).sum
      = sumAmt rows := ((hperm.map Prod.snd).sum_eq).trans htot
  have hsplit :
      (((List.insertionSort sndLe (agencyTotals rows)).take
          ((List.insertionSort sndLe (agencyTotals rows)).length - 10)).map
        Prod.snd).sum
      + (((List.insertionSort sndLe (agencyTotals rows)).drop
          ((List.insertionSort sndLe (agencyTotals rows)).length - 10)).map
        Prod.snd).sum
      = ((List.insertionSort sndLe (agencyTotals rows)).map Prod.snd).sum := by
    rw [← List.sum_append, ← List.map_append, List.take_append_drop]
  have htknn : 0 ≤
      (((List.insertionSort sndLe (agencyTotals rows)).take
          ((List.insertionSort sndLe (agencyTotals rows)).length - 10)).map
        Prod.snd).sum := by
    apply List.sum_nonneg
    intro q hq
    obtain ⟨p, hp, rfl⟩ := List.mem_map.mp hq
    have hpS : p ∈ List.insertionSort sndLe (agencyTotals rows) :=
      List.take_subset _ _ hp
    have hpT : p ∈ agencyTotals rows := (hperm.mem_iff).mp hpS
    rw [agencyTotals] at hpT
    obtain ⟨a, _, rfl⟩ := List.mem_map.mp hpT
    simp only [sumAmt]
    apply List.sum_nonneg
    intro y hy
    obtain ⟨r, hrf, rfl⟩ := List.mem_map.mp hy
    exact h r (List.mem_of_mem_filter hrf)
  refine ⟨?_, ?_, ?_⟩
  · show (((List.insertionSort sndLe (agencyTotals rows)).drop
        ((List.insertionSort sndLe (agencyTotals rows)).length - 10)).map
      Prod.snd).sum ≤ sumAmt rows
    rw [← hsums, ← hsplit]
    linarith
  · intro hk
    have hlen : (List.insertionSort sndLe (agencyTotals rows)).length
        = (agencyKeys rows).length := by
      rw [hperm.length_eq, agencyTotals, List.length_map]
    show (((List.insertionSort sndLe (agencyTotals rows)).drop
        ((List.insertionSort sndLe (agencyTotals rows)).length - 10)).map
      Prod.snd).sum = sumAmt rows
    rw [hlen, show (agencyKeys rows).length - 10 = 0 by omega, List.drop_zero]
    exact hsums
  · exact (List.sorted_insertionSort sndLe (agencyTotals rows)).sublist
      (List.drop_sublist _ _)

theorem top10_agencies_bound_witness :
    ((top10Agencies rowsPair).map Prod.snd).sum ≤ sumAmt rowsPair
    ∧ ((agencyKeys rowsPair).length ≤ 10 →
        ((top10Agencies rowsPair).map Prod.snd).sum = sumAmt rowsPair)
    ∧ List.Pairwise sndLe (top10Agencies rowsPair) :=
  top10_agencies_bound rowsPair (by decide)

theorem top10_equality_gap_eleven :
    ((top10Agencies rowsElevenAgencies).map Prod.snd).sum
      = sumAmt rowsElevenAgencies
    ∧ (agencyKeys rowsElevenAgencies).length = 11 := by
  have hz : ∀ r ∈ rowsElevenAgencies, r.amount = 0 := by decide
  have h0 : sumAmt rowsElevenAgencies = 0 := by
    simp only [sumAmt]
    apply List.sum_eq_zero
    intro x hx
    obtain ⟨r, hr, rfl⟩ := List.mem_map.mp hx
    exact hz r hr
  have h1 : ((top10Agencies rowsElevenAgencies).map Prod.snd).sum = 0 := by
    apply List.sum_eq_zero
    intro q hq
    obtain ⟨p, hp, rfl⟩ := List.mem_map.mp hq
    have hpS : p ∈ List.insertionSort sndLe (agencyTotals rowsElevenAgencies) :=
      List.drop_subset _ _ hp
    have hpT : p ∈ agencyTotals rowsElevenAgencies :=
      ((List.perm_insertionSort _ _).mem_iff).mp hpS
    rw [agencyTotals] at hpT
    obtain ⟨a, _, rfl⟩ := List.mem_map.mp hpT
    simp only [sumAmt]
    apply List.sum_eq_zero
    intro y hy
    obtain ⟨r, hrf, rfl⟩ := List.mem_map.mp hy
    exact hz r (List.mem_of_mem_filter hrf)
  rw [h0, h1]
  exact ⟨rfl, by decide⟩

/-- C9 (amended): one unparseable amount makes the whole load yield no
table, and the application then renders error notices only, suppressing
every data view: the system fails closed.  (The claim of a single error
message is refuted by the separate counterexample: two notices are
surfaced, one from the loader and one from the top level.) -/
theorem load_failure_fails_closed (raws : List (List Nat))
    (h : ∃ r ∈ raws, parseFloatQ (stripAmt r) = none) :
    loadAmounts raws = none
    ∧ (appViews raws).all isErrorView = true
    ∧ appViews raws ≠ [] := by
  obtain ⟨r, hr, hn⟩ := h
  have hnone : loadAmounts raws = none := by
    rw [← Option.not_isSome_iff_eq_none]
    intro hs
    have hall := (loadAmounts_isSome_iff raws).mp hs r hr
    rw [hn] at hall
    simp at hall
  refine ⟨hnone, ?_, ?_⟩ <;> simp [appViews, hnone, isErrorView]

theorem load_failure_fails_closed_witness :
    loadAmounts [strN "abc"] = none
    ∧ (appViews [strN "abc"]).all isErrorView = true
    ∧ appViews [strN "abc"] ≠ [] :=
  load_failure_fails_closed [strN "abc"] ⟨strN "abc", by decide, by decide⟩

theorem load_failure_two_notices :
    ((appViews [strN "abc"]).filter isErrorView).length = 2 := by decide
